import Mathlib

/-!
Verification development for the Onboarder dependency-graph pipeline.

The definitions below are a shallow embedding of the TypeScript sources:
  - src/services/DependencyService.ts  (graph build and import resolution)
  - src/utils/parser/RegexParser.ts    (regex-driven import extraction)
  - src/webview/graph/GraphEngine.ts   (selection handlers, color hash)
  - src/webview/graph/HullGenerator.ts (Voronoi plates / landmass)
  - src/webview/graph/Layout.ts        (d3-force wrapper, drag pinning)
  - src/webview/graph/Renderer.ts      (click disambiguation, selection state)

JavaScript numbers are modelled exactly: 32-bit coercions performed by the
bitwise operators are explicit (`toInt32`), and coordinates are rationals.
External collaborators (the filesystem, the d3 Voronoi cell routine) are
modelled as explicit parameters.
-/

namespace Onboarder

/-! ## JavaScript number primitives -/

/-- ToInt32 coercion applied by JavaScript bitwise operators: reduce the
integer modulo 2^32 into the signed range [-2^31, 2^31). -/
def toInt32 (n : Int) : Int :=
  let m := n.emod 4294967296
  if m < 2147483648 then m else m - 4294967296

/-- JavaScript `h << 5`: ToInt32 the operand, shift left by 5, and wrap the
result back into the signed 32-bit range. -/
def jsShl5 (h : Int) : Int :=
  toInt32 (toInt32 h * 32)

/-! ## GraphEngine.getColor (src/webview/graph/GraphEngine.ts lines 236-244) -/

/-- One iteration of the loop body
`hash = str.charCodeAt(i) + ((hash << 5) - hash)`.
Only the shift coerces to 32 bits; the subtraction and addition are exact
(JavaScript doubles are exact integers in the range reached here). -/
def hashStep (h : Int) (code : Nat) : Int :=
  (code : Int) + (jsShl5 h - h)

/-- The string hash accumulated over the UTF-16 code units of `str`,
starting from 0 (`let hash = 0`). -/
def strHash (s : String) : Int :=
  s.data.foldl (fun h c => hashStep h c.toNat) 0

/-- JavaScript `hash & 0x00FFFFFF`: both operands pass through ToInt32 and
the low 24 bits of the two's-complement representation are kept, which is
exactly the nonnegative residue of `hash` modulo 2^24. -/
def jsAnd24 (h : Int) : Nat :=
  ((toInt32 h).emod 16777216).toNat

/-- Digit characters produced by JavaScript `Number.prototype.toString(16)`:
`0`-`9` then lowercase `a`-`f`. -/
def hexDigitChar (n : Nat) : Char :=
  if n < 10 then Char.ofNat (48 + n) else Char.ofNat (87 + n)

/-- Accumulator version of base-16 printing, most significant digit first,
mirroring `toString(16)` for nonnegative arguments. The structural fuel
argument only bounds the recursion depth; `toHex` passes `n` itself, which
is never exhausted since the value shrinks by a factor of 16 per step. -/
def toHexAux (fuel : Nat) (n : Nat) (acc : List Char) : List Char :=
  match fuel with
  | 0 => hexDigitChar (n % 16) :: acc
  | fuel + 1 =>
    if n < 16 then hexDigitChar n :: acc
    else toHexAux fuel (n / 16) (hexDigitChar (n % 16) :: acc)

/-- JavaScript `n.toString(16)` for a natural number. -/
def toHex (n : Nat) : List Char :=
  toHexAux n n []

/-- The body of `GraphEngine.getColor`:
`'#' + '00000'.substring(0, 6 - c.length) + c` where
`c = (hash & 0x00FFFFFF).toString(16).toUpperCase()`. String concatenation
and `substring` are modelled on the underlying character lists
(`String.append` concatenates the data lists; `substring(0, k)` with a
clamped nonnegative end index is `List.take k`). -/
def getColor (str : String) : String :=
  let hash := strHash str
  let c : List Char := (toHex (jsAnd24 hash)).map Char.toUpper
  ⟨'#' :: "00000".data.take (6 - c.length) ++ c⟩

/-- A theme palette choice held by the renderer; the engine's observable
state as far as color production is concerned. The source toggles this
between renders. -/
inductive Theme where
  | LIGHT
  | DARK
deriving DecidableEq

/-- The mutable engine state surrounding `getColor`: the current theme and
the current selection. `getColor` is an instance method, so the embedding
gives it access to the whole state. -/
structure EngineColorState where
  currentTheme : Theme
  selectedNodeId : Option String

/-- `GraphEngine.getColor` as a method: it receives the engine state but its
body (lines 237-243) reads only `str`, never `this`. -/
def engineGetColor (_st : EngineColorState) (str : String) : String :=
  getColor str

/-- A character is an uppercase hexadecimal digit. -/
def isUpperHexDigit (c : Char) : Prop :=
  c ∈ ("0123456789ABCDEF".data)

instance (c : Char) : Decidable (isUpperHexDigit c) := by
  unfold isUpperHexDigit
  infer_instance

/-! ## RegexParser.parseImports, Go branch
(src/utils/parser/RegexParser.ts lines 27-48)

The two regexes executed for `languageId === 'go'` are embedded as explicit
left-to-right scanners with the exact semantics of `RegExp.exec` with the
`g` flag: the engine tries each start position from left to right, and after
a successful match resumes after the matched text. -/

/-- JavaScript regex `\s` restricted to the ASCII whitespace characters
(space, tab, line feed, carriage return, vertical tab, form feed); the
Unicode space classes are irrelevant to the sources parsed here. -/
def isJsWS (c : Char) : Bool :=
  c = ' ' || c = '\t' || c = '\n' || c = '\r' || c = Char.ofNat 11 || c = Char.ofNat 12

/-- Strip a literal character sequence from the head of the input, or fail. -/
def matchLit : List Char → List Char → Option (List Char)
  | [], cs => some cs
  | _ :: _, [] => none
  | l :: ls, c :: cs => if c = l then matchLit ls cs else none

/-- Lazy capture `(.*?)` terminated by a closing double quote: consume up to
the first `"`; `.` does not match line terminators, so a `\n` or `\r` before
the closing quote fails the match at this start position. -/
def scanQuoted (acc : List Char) : List Char → Option (List Char × List Char)
  | [] => none
  | c :: rest =>
    if c = '"' then some (acc.reverse, rest)
    else if c = '\n' || c = '\r' then none
    else scanQuoted (c :: acc) rest

/-- Lazy capture `([\s\S]*?)` terminated by a closing parenthesis: consume
up to the first `)`, accepting any character including newlines. -/
def scanToClose (acc : List Char) : List Char → Option (List Char × List Char)
  | [] => none
  | c :: rest =>
    if c = ')' then some (acc.reverse, rest)
    else scanToClose (c :: acc) rest

/-- Attempt to match `import\s+"(.*?)"` at the head of the input. `\s+` is
greedy over a whitespace run; since `"` is not whitespace, the run must be
maximal and nonempty. Returns the capture and the remainder after the match. -/
def matchImportQuote (cs : List Char) : Option (List Char × List Char) :=
  match matchLit ("import".data) cs with
  | none => none
  | some rest =>
    let ws := rest.takeWhile isJsWS
    let rest2 := rest.dropWhile isJsWS
    if ws.isEmpty then none
    else
      match rest2 with
      | '"' :: rest3 => scanQuoted [] rest3
      | _ => none

/-- Attempt to match `import\s+\(([\s\S]*?)\)` at the head of the input. -/
def matchImportBlock (cs : List Char) : Option (List Char × List Char) :=
  match matchLit ("import".data) cs with
  | none => none
  | some rest =>
    let ws := rest.takeWhile isJsWS
    let rest2 := rest.dropWhile isJsWS
    if ws.isEmpty then none
    else
      match rest2 with
      | '(' :: rest3 => scanToClose [] rest3
      | _ => none

/-- Global scan of `/import\s+"(.*?)"/g`: on a failed start advance one
character; on a success emit the capture and resume after the match. The
fuel argument bounds the number of steps by the input length. -/
def goSinglesAux : Nat → List Char → List (List Char)
  | 0, _ => []
  | _ + 1, [] => []
  | fuel + 1, cs =>
    match matchImportQuote cs with
    | some (cap, rest) => cap :: goSinglesAux fuel rest
    | none =>
      match cs with
      | [] => []
      | _ :: rest => goSinglesAux fuel rest

/-- Global scan of `/import\s+\(([\s\S]*?)\)/g`, collecting the block bodies. -/
def goBlocksAux : Nat → List Char → List (List Char)
  | 0, _ => []
  | _ + 1, [] => []
  | fuel + 1, cs =>
    match matchImportBlock cs with
    | some (cap, rest) => cap :: goBlocksAux fuel rest
    | none =>
      match cs with
      | [] => []
      | _ :: rest => goBlocksAux fuel rest

/-- One `exec` of `/"(.*?)"/` on a single line (the per-line `quoteMatch`):
try each start position; a start at a quote whose capture runs into a line
terminator or the end of input fails, and the engine moves on. -/
def lineQuote : List Char → Option (List Char)
  | [] => none
  | c :: rest =>
    if c = '"' then
      match scanQuoted [] rest with
      | some (cap, _) => some cap
      | none => lineQuote rest
    else lineQuote rest

/-- JavaScript `str.split('\n')` over the character list: split at every
separator occurrence, keeping empty pieces. -/
def splitOnChar (sep : Char) : List Char → List (List Char)
  | [] => [[]]
  | c :: rest =>
    let r := splitOnChar sep rest
    if c = sep then [] :: r
    else
      match r with
      | [] => [[c]]
      | h :: t => (c :: h) :: t

/-- Insertion into the `Set<string>` of imports: JavaScript sets keep the
first insertion and preserve insertion order. -/
def insertUniq (l : List String) (s : String) : List String :=
  if s ∈ l then l else l ++ [s]

/-- The Go branch of `RegexParser.parseImports`: single-line matches first,
then for each parenthesised block each line contributes the first quoted
entry, all deduplicated through the `Set` in insertion order and returned
via `Array.from`. -/
def parseImportsGo (content : String) : List String :=
  let singles := goSinglesAux content.data.length content.data
  let blocks := goBlocksAux content.data.length content.data
  let blockEntries := blocks.flatMap (fun b =>
    (splitOnChar '\n' b).filterMap lineQuote)
  ((singles ++ blockEntries).map (fun l => (⟨l⟩ : String))).foldl insertUniq []

/-! ## Path model (Node's `path` module, POSIX separators)

The resolver and builder use `path.join`, `path.dirname`, `path.basename`,
`path.relative` and `path.resolve` on absolute workspace paths without
trailing separators; the models below implement those functions for that
domain. `path.sep` is `/`. -/

/-- Join a list of path segments with `/` (`Array.prototype.join('/')`). -/
def joinSep : List String → String
  | [] => ""
  | [s] => s
  | s :: rest => s ++ "/" ++ joinSep rest

/-- Split a string on the character `sep`, keeping empty pieces
(JavaScript `String.prototype.split`). -/
def splitStr (sep : Char) (s : String) : List String :=
  (splitOnChar sep s.data).map (fun l => (⟨l⟩ : String))

/-- `path.join(a, b)` for a nonempty base and a relative tail: concatenation
with a single separator. -/
def pjoin (a b : String) : String :=
  a ++ "/" ++ b

/-- `path.dirname`: everything before the last separator; a path with no
separator has dirname `.`, and a direct child of the root keeps the
leading `/`. -/
def dirname (p : String) : String :=
  let segs := splitStr '/' p
  match segs with
  | [] => "."
  | [_] => "."
  | _ =>
    let front := segs.dropLast
    if front = [""] then ("/") else joinSep front

/-- `path.basename`: everything after the last separator. -/
def basename (p : String) : String :=
  match (splitStr '/' p).getLast? with
  | some s => s
  | none => p

/-- Normalisation step shared by `path.resolve`: process segments, dropping
empty and `.` segments and letting `..` pop the accumulator. -/
def normalizeSegs (acc : List String) : List String → List String
  | [] => acc.reverse
  | s :: rest =>
    if s = "" || s = "." then normalizeSegs acc rest
    else if s = ".." then
      match acc with
      | [] => normalizeSegs [] rest
      | _ :: t => normalizeSegs t rest
    else normalizeSegs (s :: acc) rest

/-- `path.resolve(dir, rel)` for an absolute `dir`: join and normalise. -/
def presolve (dir rel : String) : String :=
  "/" ++ joinSep (normalizeSegs [] (splitStr '/' (dir ++ "/" ++ rel)))

/-- `path.relative(root, p)` for the workspace case: `p` inside `root`
yields the suffix after `root/`; otherwise the path is returned unchanged
(sufficient for files enumerated under the workspace root). -/
def relativeTo (root p : String) : String :=
  if root = "" then p
  else if (root ++ "/").isPrefixOf p then p.drop (root ++ "/").length
  else p

/-! ## Filesystem model

`fs.existsSync` / `fs.lstatSync(..).isFile() / .isDirectory()` are read-only
existence and kind probes; the filesystem is modelled as a partial map from
paths to entry kinds. -/

/-- The kind of a filesystem entry. -/
inductive FKind where
  | file
  | dir
deriving DecidableEq

/-- A filesystem snapshot: which paths exist and what they are. -/
def FS := String → Option FKind

/-- `fs.existsSync(p) && fs.lstatSync(p).isFile()`. -/
def FS.isFile (fs : FS) (p : String) : Bool :=
  fs p = some FKind.file

/-- `fs.existsSync(p) && fs.lstatSync(p).isDirectory()`. -/
def FS.isDir (fs : FS) (p : String) : Bool :=
  fs p = some FKind.dir

/-! ## DependencyService.resolveImport
(src/services/DependencyService.ts lines 126-198) -/

/-- The fixed candidate suffix list tried by `checkFile`. -/
def extensions : List String :=
  [".ts", ".tsx", ".js", ".jsx", ".py", ".go", ".java",
   "/index.ts", "/index.js", "/index.tsx"]

/-- The `checkFile` helper: the literal candidate if it is a file, then the
candidate with each suffix appended, in suffix-list order. -/
def checkFile (fs : FS) (candidate : String) : List String :=
  (if fs.isFile candidate then [candidate] else []) ++
    extensions.filterMap (fun ext =>
      if fs.isFile (candidate ++ ext) then some (candidate ++ ext) else none)

/-- The `checkDir` helper: if the candidate is a directory, the known files
whose direct parent is the candidate, in known-file order. -/
def checkDir (fs : FS) (allFiles : List String) (candidate : String) : List String :=
  if fs.isDir candidate then allFiles.filter (fun f => dirname f = candidate)
  else []

/-- One file-then-directory probe at a candidate path: push `checkFile`
hits, and only if there are none push `checkDir` hits
(`hits.push(...checkFile(c)); if (hits.length === 0) hits.push(...checkDir(c))`). -/
def probe (fs : FS) (allFiles : List String) (candidate : String) : List String :=
  let hits := checkFile fs candidate
  if hits.isEmpty then hits ++ checkDir fs allFiles candidate else hits

/-- Strategy A: root-relative probe at `path.join(rootPath, importPath)`. -/
def rootProbe (fs : FS) (allFiles : List String) (rootPath importPath : String) : List String :=
  probe fs allFiles (pjoin rootPath importPath)

/-- Strategy B: src-relative probe at `path.join(rootPath, 'src', importPath)`. -/
def srcProbe (fs : FS) (allFiles : List String) (rootPath importPath : String) : List String :=
  probe fs allFiles (pjoin (pjoin rootPath ("src")) importPath)

/-- Strategy C inner loop: for each suffix of the import segments (dropping
one leading segment per iteration), skip empty suffixes, probe
`path.join(rootPath, suffix)` as a directory or file, and stop at the first
nonempty hit list. -/
def fuzzyLoop (fs : FS) (allFiles : List String) (rootPath : String) :
    List String → List String
  | [] => []
  | parts@(_ :: rest) =>
    let suffix := joinSep parts
    if suffix = "" then fuzzyLoop fs allFiles rootPath rest
    else
      let candidate := pjoin rootPath suffix
      let hits :=
        if fs.isDir candidate then checkDir fs allFiles candidate
        else if fs.isFile candidate then [candidate]
        else []
      if hits.isEmpty then fuzzyLoop fs allFiles rootPath rest else hits

/-- Strategy C: fuzzy workspace match over the `/`-separated segments of
the import path. -/
def fuzzyProbe (fs : FS) (allFiles : List String) (rootPath importPath : String) : List String :=
  fuzzyLoop fs allFiles rootPath (splitStr '/' importPath)

/-- `importPath.startsWith('.')`: the first character is a dot. -/
def startsWithDot (s : String) : Bool :=
  match s.data with
  | '.' :: _ => true
  | _ => false

/-- `DependencyService.resolveImport`: relative imports resolve against
the importing file's directory; other imports try root-relative, then
src-relative, then the fuzzy suffix match, each strategy running only when
every earlier one produced no hits. -/
def resolveImport (fs : FS) (allFiles : List String)
    (importPath sourceFile rootPath : String) : List String :=
  if startsWithDot importPath then
    probe fs allFiles (presolve (dirname sourceFile) importPath)
  else
    let hits := rootProbe fs allFiles rootPath importPath
    let hits := if hits.isEmpty then srcProbe fs allFiles rootPath importPath else hits
    if hits.isEmpty then fuzzyProbe fs allFiles rootPath importPath else hits

/-! ## DependencyService.generate
(src/services/DependencyService.ts lines 26-124)

The host collaborators are explicit parameters: `fs` is the filesystem
snapshot, `files` the workspace enumeration (`getWorkspaceFiles`, a list of
`fsPath`s), `rootDir` the first workspace folder, and `importsOf` the
composition of the language gate, `fs.promises.readFile` and
`parser.parseImports` — the raw import strings successfully extracted for a
file (empty for unsupported languages and per-file read errors, which are
caught and recorded without aborting the build). -/

/-- A graph node as produced by the builder. -/
structure Node where
  id : String
  posX : Int
  posY : Int
  label : String
  fullPath : String
  directory : String
deriving DecidableEq

/-- A graph edge as produced by the builder. -/
structure Edge where
  id : String
  source : String
  target : String
deriving DecidableEq

/-- `Map.prototype.set` on an association list: replace the value at an
existing key, otherwise append. -/
def jsMapSet {β : Type} (m : List (String × β)) (k : String) (v : β) : List (String × β) :=
  if m.any (fun p => p.1 = k) then
    m.map (fun p => if p.1 = k then (k, v) else p)
  else m ++ [(k, v)]

/-- `Map.prototype.get` on an association list. -/
def jsMapGet {β : Type} (m : List (String × β)) (k : String) : Option β :=
  (m.find? (fun p => p.1 = k)).map (·.2)

/-- Step 1 of `generate`: one node per enumerated file, with the counter
value as id and the root-relative directory (`.` mapped to `root`). -/
def mkNode (rootDir : String) (i : Nat) (fsPath : String) : Node :=
  let relativePath := relativeTo rootDir fsPath
  let directory := dirname relativePath
  { id := toString i
    posX := 0
    posY := 0
    label := basename fsPath
    fullPath := fsPath
    directory := if directory = "." then ("root") else directory }

/-- The node list built by the enumeration loop. -/
def buildNodes (rootDir : String) (files : List String) : List Node :=
  files.enum.map (fun p => mkNode rootDir p.1 p.2)

/-- The `fileToNodeId` map populated in the same loop. -/
def buildFileToNodeId (files : List String) : List (String × String) :=
  files.enum.foldl (fun m p => jsMapSet m p.2 (toString p.1)) []

/-- The edges contributed by one file: resolve each extracted import, keep
resolved paths present in `fileToNodeId`, and push an edge unless the
resolved target id equals the file's own id. -/
def edgesForFile (fs : FS) (files : List String) (rootDir : String)
    (fileToNodeId : List (String × String)) (importsOf : String → List String)
    (file : String) : List Edge :=
  match jsMapGet fileToNodeId file with
  | none => []
  | some sourceId =>
    (importsOf file).flatMap (fun importPath =>
      (resolveImport fs files importPath file rootDir).filterMap (fun resolvedPath =>
        match jsMapGet fileToNodeId resolvedPath with
        | some targetId =>
          if sourceId ≠ targetId then
            some { id := "e" ++ sourceId ++ "-" ++ targetId
                   source := sourceId
                   target := targetId }
          else none
        | none => none))

/-- `DependencyService.generate`: nodes from the enumeration loop, edges
from the per-file import resolution (the concurrent `Promise.all` appends
are order-nondeterministic; edge membership is order-insensitive, and the
embedding lists them in file order). -/
def generate (fs : FS) (files : List String) (rootDir : String)
    (importsOf : String → List String) : List Node × List Edge :=
  let nodes := buildNodes rootDir files
  let fileToNodeId := buildFileToNodeId files
  let edges := files.flatMap (edgesForFile fs files rootDir fileToNodeId importsOf)
  (nodes, edges)

/-! ## HullGenerator.computeLandforms
(src/webview/graph/HullGenerator.ts lines 12-70)

Coordinates are rationals. The two external geometry routines from
d3-delaunay and d3-polygon are explicit parameters: `cellFn` stands for
`Delaunay.from(points).voronoi(bounds).cellPolygon(i)` (the Voronoi cell of
site `i` clipped to `bounds`, or null) and `hullFn` for `polygonHull`. -/

/-- A point in the plane. -/
def Pt := ℚ × ℚ
deriving DecidableEq

/-- The hull type tag. -/
inductive HullType where
  | plate
  | landmass
deriving DecidableEq

/-- A region polygon produced by the generator. -/
structure Hull where
  id : String
  path : List Pt
  color : String
  type : HullType

/-- A layout node as consumed by the hull generator: `x` and `y` are
optional (`node.x || 0` guards), `directory` may be empty (`|| 'root'`). -/
structure GNode where
  id : String
  label : String
  directory : String
  x : Option ℚ
  y : Option ℚ

/-- `node.directory || 'root'`: the empty string is falsy. -/
def dirOf (n : GNode) : String :=
  if n.directory = "" then ("root") else n.directory

/-- `node.x || 0` (undefined maps to 0). -/
def xOf (n : GNode) : ℚ := n.x.getD 0

/-- `node.y || 0`. -/
def yOf (n : GNode) : ℚ := n.y.getD 0

/-- The per-cluster accumulator `{ x, y, count }`. -/
structure ClusterAcc where
  sx : ℚ
  sy : ℚ
  count : ℕ

/-- One `forEach` step over the nodes: create the entry if missing, then add
the node's coordinates and bump the count. -/
def addCluster (m : List (String × ClusterAcc)) (n : GNode) : List (String × ClusterAcc) :=
  let dir := dirOf n
  if m.any (fun p => p.1 = dir) then
    m.map (fun p =>
      if p.1 = dir then (dir, ⟨p.2.sx + xOf n, p.2.sy + yOf n, p.2.count + 1⟩) else p)
  else m ++ [(dir, ⟨xOf n, yOf n, 1⟩)]

/-- The `clusterMap` record in key-insertion order. -/
def clusterMapOf (nodes : List GNode) : List (String × ClusterAcc) :=
  nodes.foldl addCluster []

/-- A directory centroid (a Voronoi site). -/
structure Centroid where
  dir : String
  cx : ℚ
  cy : ℚ

/-- `Object.entries(clusterMap)` mapped to centroids. -/
def centroidsOf (nodes : List GNode) : List Centroid :=
  (clusterMapOf nodes).map (fun p => ⟨p.1, p.2.sx / p.2.count, p.2.sy / p.2.count⟩)

/-- The Voronoi sites. -/
def pointsOf (nodes : List GNode) : List Pt :=
  (centroidsOf nodes).map (fun c => (c.cx, c.cy))

/-- The fixed Voronoi clipping bounds `[-2000, -2000, 4000, 4000]`. -/
def voronoiBounds : ℚ × ℚ × ℚ × ℚ :=
  (-2000, -2000, 4000, 4000)

/-- The type of the abstracted d3 Voronoi cell routine. -/
def CellFn := List Pt → (ℚ × ℚ × ℚ × ℚ) → ℕ → Option (List Pt)

/-- The type of the abstracted d3 convex hull routine. -/
def HullFn := List Pt → Option (List Pt)

/-- The padded corner points fed to `polygonHull` (pad 80 per node). -/
def paddedPoints (nodes : List GNode) : List Pt :=
  nodes.flatMap (fun n =>
    [(xOf n - 80, yOf n - 80), (xOf n + 80, yOf n - 80),
     (xOf n + 80, yOf n + 80), (xOf n - 80, yOf n + 80)])

/-- `HullGenerator.computeLandforms`: fewer than three nodes short-circuit
to no landmass and no plates; otherwise one Voronoi plate per centroid
(null cells filtered out) and the convex hull of the padded node corners as
the landmass. -/
def computeLandforms (cellFn : CellFn) (hullFn : HullFn)
    (nodes : List GNode) (colorFn : String → String) : Option Hull × List Hull :=
  if nodes.length < 3 then (none, [])
  else
    let centroids := centroidsOf nodes
    let points := pointsOf nodes
    let plates := centroids.enum.filterMap (fun p =>
      (cellFn points voronoiBounds p.1).map (fun cell =>
        { id := p.2.dir
          path := cell
          color := colorFn p.2.dir
          type := HullType.plate }))
    let landmass := (hullFn (paddedPoints nodes)).map (fun poly =>
      { id := "global_landmass"
        path := poly
        color := "#111111"
        type := HullType.landmass })
    (landmass, plates)

/-- First-occurrence deduplication: the distinct values of a list in the
order they first appear (the key order of a JavaScript record populated by
first-touch insertion). -/
def firstOccur (l : List String) : List String :=
  l.foldl (fun acc d => if d ∈ acc then acc else acc ++ [d]) []

/-! ## Layout drag interaction
(src/webview/graph/Layout.ts lines 96-111)

The d3-force simulation state relevant to dragging: the node array (each
node with a position and an optional fixed position) and the simulation's
`alphaTarget` energy floor. `dragMove` and `dragEnd` receive the node by
reference; the embedding addresses it by its index in the working set. -/

/-- A layout node: position plus optional pinned position. -/
structure LNode where
  id : String
  x : ℚ
  y : ℚ
  fx : Option ℚ
  fy : Option ℚ
deriving DecidableEq

/-- The layout state touched by the drag interaction. -/
structure LayoutState where
  nodes : List LNode
  alphaTarget : ℚ
deriving DecidableEq

/-- In-place update of one array element. -/
def updateAt {α : Type} : Nat → (α → α) → List α → List α
  | _, _, [] => []
  | 0, f, a :: t => f a :: t
  | n + 1, f, a :: t => a :: updateAt n f t

/-- `Layout.dragStart`: `simulation.alphaTarget(0.3).restart()`. -/
def dragStart (st : LayoutState) : LayoutState :=
  { st with alphaTarget := 3 / 10 }

/-- `Layout.dragMove(node, x, y)`: `node.fx = x; node.fy = y`. -/
def dragMove (st : LayoutState) (i : Nat) (px py : ℚ) : LayoutState :=
  { st with nodes := updateAt i (fun n => { n with fx := some px, fy := some py }) st.nodes }

/-- `Layout.dragEnd(node)`: `simulation.alphaTarget(0); node.fx = null;
node.fy = null`. -/
def dragEnd (st : LayoutState) (i : Nat) : LayoutState :=
  { nodes := updateAt i (fun n => { n with fx := none, fy := none }) st.nodes
    alphaTarget := 0 }

/-! ## Renderer click disambiguation and selection state
(src/webview/graph/Renderer.ts lines 94-130, 196-206, 343-358, 384-388;
src/webview/graph/GraphEngine.ts lines 130-210) -/

/-- The renderer's selection state, written only through `updateSelection`. -/
structure RenderSel where
  selectedNodeId : Option String
  highlightNeighbors : List String
  selectedClusterId : Option String
deriving DecidableEq

/-- `Renderer.updateSelection`: overwrite all three fields. -/
def updateSelection (_old : RenderSel) (n : Option String) (nb : List String)
    (c : Option String) : RenderSel :=
  ⟨n, nb, c⟩

/-- The engine-side state mutated by the click handlers: the engine's own
`selectedNodeId` mirror plus the renderer selection. -/
structure EngineState where
  engineSelectedNodeId : Option String
  sel : RenderSel
deriving DecidableEq

/-- A link as seen by the engine after layout: endpoint node ids. -/
structure ELink where
  source : String
  target : String

/-- An engine-side node (the fields the click handlers inspect). -/
structure ENode where
  id : String
  label : String
  directory : String

/-- The neighbor `Set` computed in `handleNodeClick`: for each link add the
opposite endpoint of every link touching `id`. -/
def neighborsOf (links : List ELink) (id : String) : List String :=
  links.foldl (fun s l =>
    let s := if l.source = id then insertUniq s l.target else s
    if l.target = id then insertUniq s l.source else s) []

/-- `GraphEngine.handleNodeClick`: only a double click acts; the node must
exist in the layout; selection becomes the node with its neighbors and no
cluster. -/
def handleNodeClick (nodes : List ENode) (links : List ELink)
    (st : EngineState) (id : String) (clickCount : Nat) : EngineState :=
  if clickCount = 2 then
    match nodes.find? (fun n => n.id = id) with
    | none => st
    | some _ =>
      { engineSelectedNodeId := some id
        sel := updateSelection st.sel (some id) (neighborsOf links id) none }
  else st

/-- `GraphEngine.handleHullClick`: only a double click acts; selection
becomes the cluster with no node and an empty neighbor set. -/
def handleHullClick (st : EngineState) (id : String) (clickCount : Nat) : EngineState :=
  if clickCount = 2 then
    { engineSelectedNodeId := none
      sel := updateSelection st.sel none [] (some id) }
  else st

/-- `GraphEngine.handleBackgroundClick`: any click count clears both
selections (the double-click branch only moves the camera). -/
def handleBackgroundClick (st : EngineState) (_clickCount : Nat) : EngineState :=
  { engineSelectedNodeId := none
    sel := updateSelection st.sel none [] none }

/-- Per-node click timestamps: `(node as any)._lastClick`, absent until the
first click on that node. -/
def NodeClicks := List (String × Nat)

/-- The `onUp` double-click heuristic for a node sprite (Renderer lines
348-356): `_lastClick && now - _lastClick < 300` — an absent or zero
timestamp is falsy — reports click count 2, else 1; then the node's
timestamp is set to `now`. -/
def pressNode (st : NodeClicks) (id : String) (now : Nat) : Nat × NodeClicks :=
  let cnt :=
    match jsMapGet st id with
    | some t => if t ≠ 0 ∧ now - t < 300 then 2 else 1
    | none => 1
  (cnt, jsMapSet st id now)

/-- The shared timed-click test used by each plate closure (`lastClickTime`,
initially 0; Renderer lines 196-206) and by the stage background
(`lastStageClickTime`, initially 0; lines 94-119): a press within 300ms of
the recorded time counts 2, else 1, and the time is recorded. -/
def timedClick (last : Nat) (now : Nat) : Nat × Nat :=
  (if now - last < 300 then 2 else 1, now)

/-- Exclusivity of the renderer selection: a selected node and a selected
cluster are never simultaneously set. -/
def exclusiveSel (st : EngineState) : Prop :=
  ¬(st.sel.selectedNodeId.isSome = true ∧ st.sel.selectedClusterId.isSome = true)

instance (st : EngineState) : Decidable (exclusiveSel st) := by
  unfold exclusiveSel
  infer_instance

/-! ## Concrete instances used by the witness theorems -/

/-- A two-file workspace: `/r/a.ts` and `/r/b.ts` under root `/r`. -/
def fsW : FS := fun p =>
  if p = "/r/a.ts" ∨ p = "/r/b.ts" then some FKind.file
  else if p = "/r" then some FKind.dir
  else none

/-- The enumerated files of `fsW`. -/
def filesW : List String := ["/r/a.ts", "/r/b.ts"]

/-- Extracted imports in the `fsW` workspace: `a.ts` imports `./b`. -/
def importsW : String → List String := fun f =>
  if f = "/r/a.ts" then ["./b"] else []

/-- Extracted imports where `a.ts` nominally imports itself as well. -/
def importsSelfW : String → List String := fun f =>
  if f = "/r/a.ts" then ["./a", "./b"] else []

/-- A workspace where both a root-relative hit (`/r/lib/util.ts`, found via
the `.ts` suffix) and an unrelated fuzzy-suffix hit (`/r/util`, found by
dropping the leading `lib` segment) exist for the import `lib/util`. -/
def fsR : FS := fun p =>
  if p = "/r/lib/util.ts" ∨ p = "/r/util" then some FKind.file
  else if p = "/r" ∨ p = "/r/lib" then some FKind.dir
  else none

/-- The enumerated files of `fsR`. -/
def filesR : List String := ["/r/lib/util.ts", "/r/util"]

/-- Three layout nodes in two directories. -/
def nodesW : List GNode :=
  [⟨"0", "a.ts", "src", some 0, some 0⟩,
   ⟨"1", "b.ts", "src", some 10, some 0⟩,
   ⟨"2", "c.ts", "lib", some 0, some 10⟩]

/-- A concrete total Voronoi cell routine for the witness. -/
def cellW : CellFn := fun _ _ i => some [((i : ℚ), 0), (0, 1), (1, 0)]

/-- A concrete convex hull routine for the witness. -/
def hullW : HullFn := fun pts => some pts

/-- An empty engine selection state. -/
def engineStW : EngineState := ⟨none, ⟨none, [], none⟩⟩

/-- Two unpinned layout nodes. -/
def layoutStW : LayoutState :=
  ⟨[⟨"0", 1, 2, none, none⟩, ⟨"1", 3, 4, none, none⟩], 0⟩

/-- One engine node and one link for the click witnesses. -/
def enodesW : List ENode := [⟨"0", "a.ts", "src"⟩]

/-- A single link between nodes `0` and `1`. -/
def elinksW : List ELink := [⟨"0", "1"⟩]

/-! # Theorems -/

/-! ## Helper lemmas -/

theorem updateAt_getElem_self {α : Type} (f : α → α) :
    ∀ (l : List α) (i : Nat), (updateAt i f l)[i]? = (l[i]?).map f := by
  intro l
  induction l with
  | nil => intro i; simp [updateAt]
  | cons a t ih =>
    intro i
    cases i with
    | zero => simp [updateAt]
    | succ n => simpa [updateAt] using ih n

theorem updateAt_getElem_other {α : Type} (f : α → α) :
    ∀ (l : List α) (i j : Nat), j ≠ i → (updateAt i f l)[j]? = l[j]? := by
  intro l
  induction l with
  | nil => intro i j _; simp [updateAt]
  | cons a t ih =>
    intro i j hji
    cases i with
    | zero =>
      cases j with
      | zero => exact absurd rfl hji
      | succ m => simp [updateAt]
    | succ n =>
      cases j with
      | zero => simp [updateAt]
      | succ m => simpa [updateAt] using ih n m (by omega)

theorem jsAnd24_lt (h : Int) : jsAnd24 h < 16777216 := by
  unfold jsAnd24
  have h1 : 0 ≤ (toInt32 h).emod 16777216 := Int.emod_nonneg _ (by norm_num)
  have h2 : (toInt32 h).emod 16777216 < 16777216 := Int.emod_lt_of_pos _ (by norm_num)
  omega

theorem toHexAux_length_gt : ∀ (fuel n : Nat) (acc : List Char),
    acc.length < (toHexAux fuel n acc).length := by
  intro fuel
  induction fuel with
  | zero =>
    intro n acc
    simp [toHexAux]
  | succ fuel ih =>
    intro n acc
    rw [toHexAux]
    split
    · simp
    · have := ih (n / 16) (hexDigitChar (n % 16) :: acc)
      simp at this
      omega

theorem toHexAux_length_le : ∀ (k fuel n : Nat) (acc : List Char),
    n < 16 ^ k → 1 ≤ k → (toHexAux fuel n acc).length ≤ k + acc.length := by
  intro k
  induction k with
  | zero =>
    intro fuel n acc _ h1
    omega
  | succ k ih =>
    intro fuel n acc hn _
    cases fuel with
    | zero =>
      simp [toHexAux]
      omega
    | succ fuel =>
      rw [toHexAux]
      split
      · simp
        omega
      · rename_i h16
        have hk : 1 ≤ k := by
          by_contra hk0
          have hkz : k = 0 := by omega
          subst hkz
          simp [pow_succ, pow_zero] at hn
          omega
        have hdiv : n / 16 < 16 ^ k := by
          apply Nat.div_lt_of_lt_mul
          rw [pow_succ] at hn
          omega
        have := ih fuel (n / 16) (hexDigitChar (n % 16) :: acc) hdiv hk
        simp at this
        omega

theorem toHexAux_mem : ∀ (fuel n : Nat) (acc : List Char) (c : Char),
    c ∈ toHexAux fuel n acc → (∃ d, d < 16 ∧ c = hexDigitChar d) ∨ c ∈ acc := by
  intro fuel
  induction fuel with
  | zero =>
    intro n acc c hc
    rw [toHexAux] at hc
    rcases List.mem_cons.mp hc with h | h
    · exact Or.inl ⟨n % 16, Nat.mod_lt _ (by omega), h⟩
    · exact Or.inr h
  | succ fuel ih =>
    intro n acc c hc
    rw [toHexAux] at hc
    split at hc
    · rename_i h16
      rcases List.mem_cons.mp hc with h | h
      · exact Or.inl ⟨n, h16, h⟩
      · exact Or.inr h
    · rcases ih (n / 16) _ c hc with h | h
      · exact Or.inl h
      · rcases List.mem_cons.mp h with h | h
        · exact Or.inl ⟨n % 16, Nat.mod_lt _ (by omega), h⟩
        · exact Or.inr h

theorem hexDigitChar_upper_mem (d : Nat) (hd : d < 16) :
    isUpperHexDigit ((hexDigitChar d).toUpper) := by
  interval_cases d <;> decide

theorem mem_jsMapSet {β : Type} (m : List (String × β)) (k : String) (v : β)
    (p : String × β) (hp : p ∈ jsMapSet m k v) : p = (k, v) ∨ p ∈ m := by
  unfold jsMapSet at hp
  split at hp
  · rcases List.mem_map.mp hp with ⟨q, hq, hqe⟩
    by_cases h : q.1 = k
    · rw [if_pos h] at hqe
      exact Or.inl hqe.symm
    · rw [if_neg h] at hqe
      exact Or.inr (hqe ▸ hq)
  · rcases List.mem_append.mp hp with h | h
    · exact Or.inr h
    · simp only [List.mem_singleton] at h
      exact Or.inl h

theorem jsMapGet_mem {β : Type} (m : List (String × β)) (k : String) (v : β)
    (h : jsMapGet m k = some v) : (k, v) ∈ m := by
  unfold jsMapGet at h
  cases hf : m.find? (fun p => p.1 = k) with
  | none => rw [hf] at h; simp at h
  | some q =>
    rw [hf] at h
    simp at h
    have hqm := List.mem_of_find?_eq_some hf
    have hq1 : q.1 = k := by simpa using List.find?_some hf
    have : (k, v) = q := by
      cases q
      simp_all
    rw [this]
    exact hqm

theorem buildFileToNodeId_values (files : List String) :
    ∀ p ∈ buildFileToNodeId files, ∃ i, i < files.length ∧ p.2 = toString i := by
  unfold buildFileToNodeId
  suffices h : ∀ (l : List (Nat × String)) (m : List (String × String)),
      (∀ p ∈ m, ∃ i, i < files.length ∧ p.2 = toString i) →
      (∀ q ∈ l, q.1 < files.length) →
      ∀ p ∈ l.foldl (fun m q => jsMapSet m q.2 (toString q.1)) m,
        ∃ i, i < files.length ∧ p.2 = toString i by
    apply h files.enum [] (by simp)
    intro q hq
    have := List.mem_enum_iff_getElem?.mp hq
    rcases List.getElem?_eq_some.mp this with ⟨hlt, _⟩
    exact hlt
  intro l
  induction l with
  | nil =>
    intro m hm _ p hp
    exact hm p hp
  | cons a t ih =>
    intro m hm hl p hp
    simp only [List.foldl_cons] at hp
    refine ih (jsMapSet m a.2 (toString a.1)) ?_ ?_ p hp
    · intro p' hp'
      rcases mem_jsMapSet _ _ _ _ hp' with h | h
      · exact ⟨a.1, hl a (List.mem_cons_self _ _), by rw [h]⟩
      · exact hm p' h
    · intro q hq
      exact hl q (List.mem_cons_of_mem _ hq)

theorem mem_buildNodes_id (rootDir : String) (files : List String) (i : Nat)
    (hi : i < files.length) :
    ∃ n ∈ buildNodes rootDir files, n.id = toString i := by
  unfold buildNodes
  have hmem : (i, files.get ⟨i, hi⟩) ∈ files.enum := by
    rw [List.mk_mem_enum_iff_getElem?]
    exact List.getElem?_eq_getElem hi
  exact ⟨mkNode rootDir i (files.get ⟨i, hi⟩),
    List.mem_map_of_mem _ hmem, rfl⟩

/-- Every edge emitted by `generate` carries a source and a target id that
both come from successful `fileToNodeId` lookups, and the self-loop guard
held when it was pushed. -/
theorem generate_edge_shape (fs : FS) (files : List String) (rootDir : String)
    (importsOf : String → List String) (e : Edge)
    (he : e ∈ (generate fs files rootDir importsOf).2) :
    ∃ src tgt f rp,
      jsMapGet (buildFileToNodeId files) f = some src ∧
      jsMapGet (buildFileToNodeId files) rp = some tgt ∧
      src ≠ tgt ∧ e.source = src ∧ e.target = tgt := by
  have hgen : (generate fs files rootDir importsOf).2 =
      files.flatMap
        (edgesForFile fs files rootDir (buildFileToNodeId files) importsOf) := rfl
  rw [hgen] at he
  rcases List.mem_flatMap.mp he with ⟨f, hf, hef⟩
  unfold edgesForFile at hef
  cases hsrc : jsMapGet (buildFileToNodeId files) f with
  | none =>
    rw [hsrc] at hef
    simp at hef
  | some sourceId =>
    rw [hsrc] at hef
    rcases List.mem_flatMap.mp hef with ⟨imp, _, hei⟩
    rcases List.mem_filterMap.mp hei with ⟨rp, _, herp⟩
    cases htgt : jsMapGet (buildFileToNodeId files) rp with
    | none =>
      rw [htgt] at herp
      simp at herp
    | some targetId =>
      rw [htgt] at herp
      have herp' :
          (if sourceId ≠ targetId then
            some { id := "e" ++ sourceId ++ "-" ++ targetId,
                   source := sourceId, target := targetId }
          else (none : Option Edge)) = some e := herp
      by_cases hne : sourceId ≠ targetId
      · rw [if_pos hne] at herp'
        have he' : e.source = sourceId ∧ e.target = targetId := by
          cases herp'
          exact ⟨rfl, rfl⟩
        exact ⟨sourceId, targetId, f, rp, hsrc, htgt, hne, he'.1, he'.2⟩
      · rw [if_neg hne] at herp'
        simp at herp'

theorem addCluster_keys (m : List (String × ClusterAcc)) (n : GNode) :
    (addCluster m n).map Prod.fst =
      if dirOf n ∈ m.map Prod.fst then m.map Prod.fst
      else m.map Prod.fst ++ [dirOf n] := by
  unfold addCluster
  by_cases h : m.any (fun p => p.1 = dirOf n)
  · rw [if_pos h]
    have hm : dirOf n ∈ m.map Prod.fst := by
      simp only [List.any_eq_true, decide_eq_true_eq] at h
      rcases h with ⟨p, hp, hpe⟩
      exact List.mem_map.mpr ⟨p, hp, hpe⟩
    rw [if_pos hm, List.map_map]
    apply List.map_congr_left
    intro p _
    by_cases hpd : p.1 = dirOf n
    · simp [hpd]
    · simp [hpd]
  · rw [if_neg h]
    have hm : dirOf n ∉ m.map Prod.fst := by
      intro hc
      rcases List.mem_map.mp hc with ⟨p, hp, hpe⟩
      exact h (List.any_eq_true.mpr ⟨p, hp, by simp [hpe]⟩)
    rw [if_neg hm, List.map_append]
    rfl

theorem clusterMapOf_keys (nodes : List GNode) :
    (clusterMapOf nodes).map Prod.fst = firstOccur (nodes.map dirOf) := by
  unfold clusterMapOf firstOccur
  suffices h : ∀ (l : List GNode) (m : List (String × ClusterAcc)),
      (l.foldl addCluster m).map Prod.fst =
        (l.map dirOf).foldl
          (fun acc d => if d ∈ acc then acc else acc ++ [d]) (m.map Prod.fst) by
    simpa using h nodes []
  intro l
  induction l with
  | nil => intro m; rfl
  | cons a t ih =>
    intro m
    simp only [List.foldl_cons, List.map_cons]
    rw [ih, addCluster_keys]

theorem plates_filterMap_total (cellFn : CellFn) (colorFn : String → String)
    (pts : List Pt) :
    ∀ (l : List (ℕ × Centroid)),
      (∀ p ∈ l, (cellFn pts voronoiBounds p.1).isSome = true) →
      (l.filterMap (fun p =>
        (cellFn pts voronoiBounds p.1).map (fun cell =>
          ({ id := p.2.dir, path := cell, color := colorFn p.2.dir,
             type := HullType.plate } : Hull)))) =
      l.map (fun p =>
        ({ id := p.2.dir, path := (cellFn pts voronoiBounds p.1).getD [],
           color := colorFn p.2.dir, type := HullType.plate } : Hull)) := by
  intro l
  induction l with
  | nil => intro _; rfl
  | cons a t ih =>
    intro h
    have ha := h a (List.mem_cons_self _ _)
    cases hfa : cellFn pts voronoiBounds a.1 with
    | none => rw [hfa] at ha; simp at ha
    | some cell =>
      simp only [List.filterMap_cons, List.map_cons, hfa, Option.map_some',
        Option.getD_some]
      rw [ih (fun x hx => h x (List.mem_cons_of_mem _ hx))]

theorem getColor_data (s : String) :
    (getColor s).data =
      '#' :: "00000".data.take
        (6 - ((toHex (jsAnd24 (strHash s))).map Char.toUpper).length) ++
        (toHex (jsAnd24 (strHash s))).map Char.toUpper := rfl

/-! ## Claim theorems -/

/-- C5: on the text `import (\n\t"fmt"\n\t"os"\n)` with languageId `go`,
`parseImports` returns exactly the entries `fmt` and `os`: each line inside
the parenthesised block contributes its quoted entry independently, with no
duplicates and no extras. -/
theorem c5_go_block_extraction :
    parseImportsGo ("import (\n\t\"fmt\"\n\t\"os\"\n)") = ["fmt", "os"] := by
  decide

/-- C8: region color assignment is deterministic in the directory name —
`getColor` reads none of the engine state (theme or selection), so any two
evaluations in a session, across rebuilds and theme changes, agree, and the
result is the fixed string hash of the name's characters. -/
theorem c8_color_deterministic (st1 st2 : EngineColorState) (s : String) :
    engineGetColor st1 s = engineGetColor st2 s ∧
    engineGetColor st1 s = getColor s :=
  ⟨rfl, rfl⟩

/-- C9: `dragMove(node, x, y)` pins exactly the given node — it sets that
node's `fx`/`fy` to the given coordinates, leaving its other fields and
every other node untouched and the energy target unchanged — and
`dragEnd(node)` resets that node's `fx`/`fy` to null and drops the raised
energy floor (`alphaTarget(0)`), leaving every other node untouched. -/
theorem c9_drag_pins_exactly_one_node (st : LayoutState) (i j : Nat)
    (px py : ℚ) (hj : j ≠ i) :
    (dragMove st i px py).nodes[i]? =
      (st.nodes[i]?).map (fun n => { n with fx := some px, fy := some py }) ∧
    (dragMove st i px py).nodes[j]? = st.nodes[j]? ∧
    (dragMove st i px py).alphaTarget = st.alphaTarget ∧
    (dragEnd st i).nodes[i]? =
      (st.nodes[i]?).map (fun n => { n with fx := none, fy := none }) ∧
    (dragEnd st i).nodes[j]? = st.nodes[j]? ∧
    (dragEnd st i).alphaTarget = 0 := by
  refine ⟨?_, ?_, rfl, ?_, ?_, rfl⟩
  · exact updateAt_getElem_self _ st.nodes i
  · exact updateAt_getElem_other _ st.nodes i j hj
  · exact updateAt_getElem_self _ st.nodes i
  · exact updateAt_getElem_other _ st.nodes i j hj

/-- Witness for C9 at a concrete two-node layout, pinning node 0 to (5, 7). -/
theorem c9_drag_pins_exactly_one_node_witness :
    (dragMove layoutStW 0 5 7).nodes[0]? =
      (layoutStW.nodes[0]?).map (fun n => { n with fx := some 5, fy := some 7 }) ∧
    (dragMove layoutStW 0 5 7).nodes[1]? = layoutStW.nodes[1]? ∧
    (dragMove layoutStW 0 5 7).alphaTarget = layoutStW.alphaTarget ∧
    (dragEnd layoutStW 0).nodes[0]? =
      (layoutStW.nodes[0]?).map (fun n => { n with fx := none, fy := none }) ∧
    (dragEnd layoutStW 0).nodes[1]? = layoutStW.nodes[1]? ∧
    (dragEnd layoutStW 0).alphaTarget = 0 :=
  c9_drag_pins_exactly_one_node layoutStW 0 1 5 7 (by decide)

/-- C7: selection state is exclusive after every selection-changing
operation — a node double click selects the node and clears any cluster, a
plate double click selects the cluster and clears the node and its neighbor
highlights, a background click clears both; no handler leaves both a node
and a cluster selected. -/
theorem c7_selection_exclusive (nodes : List ENode) (links : List ELink)
    (st : EngineState) (id : String) (cnt : Nat) (h : exclusiveSel st) :
    exclusiveSel (handleNodeClick nodes links st id cnt) ∧
    exclusiveSel (handleHullClick st id cnt) ∧
    exclusiveSel (handleBackgroundClick st cnt) := by
  refine ⟨?_, ?_, ?_⟩
  · unfold handleNodeClick
    by_cases h2 : cnt = 2
    · simp only [h2, if_pos rfl]
      cases nodes.find? (fun n => n.id = id) with
      | none => exact h
      | some n => simp [exclusiveSel, updateSelection]
    · simpa [h2] using h
  · unfold handleHullClick
    by_cases h2 : cnt = 2
    · simp [h2, exclusiveSel, updateSelection]
    · simpa [h2] using h
  · simp [handleBackgroundClick, exclusiveSel, updateSelection]

/-- Witness for C7 at the empty selection state with a double click. -/
theorem c7_selection_exclusive_witness :
    exclusiveSel engineStW ∧
    (exclusiveSel (handleNodeClick enodesW elinksW engineStW ("0") 2) ∧
     exclusiveSel (handleHullClick engineStW ("src") 2) ∧
     exclusiveSel (handleBackgroundClick engineStW 2)) :=
  ⟨by decide, c7_selection_exclusive enodesW elinksW engineStW ("0") 2 (by decide)⟩

/-- C6: click disambiguation is per interactive shape — a second press on
the same node within 300ms of its recorded timestamp reports click count 2
and otherwise 1; the same holds for a plate or the background through their
own recorded timestamps; two presses within the window on two different
nodes report two independent single clicks; and single clicks on a node or
plate never change the selection state. -/
theorem c6_click_disambiguation (a b : String) (t t' u u' : Nat)
    (hab : a ≠ b) (ht : 0 < t)
    (nodes : List ENode) (links : List ELink) (st : EngineState) (id : String) :
    (pressNode (pressNode [] a t).2 a t').1 = (if t' - t < 300 then 2 else 1) ∧
    (timedClick (timedClick 0 u).2 u').1 = (if u' - u < 300 then 2 else 1) ∧
    (pressNode [] a t).1 = 1 ∧
    (pressNode (pressNode [] a t).2 b t').1 = 1 ∧
    handleNodeClick nodes links st id 1 = st ∧
    handleHullClick st id 1 = st := by
  have htne : t ≠ 0 := by omega
  refine ⟨?_, rfl, rfl, ?_, ?_, ?_⟩
  · simp [pressNode, jsMapSet, jsMapGet, htne]
  · simp [pressNode, jsMapSet, jsMapGet, hab]
  · simp [handleNodeClick]
  · simp [handleHullClick]

/-- Witness for C6: node `n1` pressed at 1000 then 1100 is a double click;
nodes `n1` and `n2` pressed at 1000 and 1100 are two single clicks; a plate
pressed at 1000 then 1400 is two single clicks; single clicks leave the
selection unchanged. -/
theorem c6_click_disambiguation_witness :
    "n1" ≠ "n2" ∧ 0 < 1000 ∧
    ((pressNode (pressNode [] ("n1") 1000).2 ("n1") 1100).1 =
      (if 1100 - 1000 < 300 then 2 else 1) ∧
     (timedClick (timedClick 0 1000).2 1400).1 =
      (if 1400 - 1000 < 300 then 2 else 1) ∧
     (pressNode [] ("n1") 1000).1 = 1 ∧
     (pressNode (pressNode [] ("n1") 1000).2 ("n2") 1100).1 = 1 ∧
     handleNodeClick enodesW elinksW engineStW ("0") 1 = engineStW ∧
     handleHullClick engineStW ("src") 1 = engineStW) :=
  ⟨by decide, by decide,
   c6_click_disambiguation ("n1") ("n2") 1000 1100 1000 1400 (by decide) (by decide)
     enodesW elinksW engineStW ("0")⟩

/-- C3: for a non-relative import string, `resolveImport` tries the
strategies in the fixed order root-relative, src-relative, fuzzy suffix
match, stopping at the first strategy with a nonempty result — whenever the
root-relative probe yields a hit, later strategies never run and contribute
nothing. -/
theorem c3_resolution_strategy_order (fs : FS) (allFiles : List String)
    (importPath sourceFile rootPath : String)
    (hrel : startsWithDot importPath = false) :
    (rootProbe fs allFiles rootPath importPath ≠ [] →
      resolveImport fs allFiles importPath sourceFile rootPath =
        rootProbe fs allFiles rootPath importPath) ∧
    (rootProbe fs allFiles rootPath importPath = [] →
      srcProbe fs allFiles rootPath importPath ≠ [] →
      resolveImport fs allFiles importPath sourceFile rootPath =
        srcProbe fs allFiles rootPath importPath) ∧
    (rootProbe fs allFiles rootPath importPath = [] →
      srcProbe fs allFiles rootPath importPath = [] →
      resolveImport fs allFiles importPath sourceFile rootPath =
        fuzzyProbe fs allFiles rootPath importPath) := by
  refine ⟨?_, ?_, ?_⟩
  · intro h
    simp [resolveImport, hrel, List.isEmpty_iff, h]
  · intro h1 h2
    simp [resolveImport, hrel, List.isEmpty_iff, h1, h2]
  · intro h1 h2
    simp [resolveImport, hrel, List.isEmpty_iff, h1, h2]

/-- Witness for C3: in `fsR` the import `lib/util` has both a root-relative
hit and a different fuzzy-suffix hit; resolution returns the root-relative
result and the fuzzy candidate contributes nothing. -/
theorem c3_resolution_strategy_order_witness :
    startsWithDot ("lib/util") = false ∧
    rootProbe fsR filesR ("/r") ("lib/util") ≠ [] ∧
    fuzzyProbe fsR filesR ("/r") ("lib/util") = ["/r/util"] ∧
    resolveImport fsR filesR ("lib/util") ("/r/main.go") ("/r") =
      rootProbe fsR filesR ("/r") ("lib/util") ∧
    resolveImport fsR filesR ("lib/util") ("/r/main.go") ("/r") = ["/r/lib/util.ts"] :=
  ⟨by decide, by decide, by decide,
   (c3_resolution_strategy_order fsR filesR ("lib/util") ("/r/main.go") ("/r") (by decide)).1
     (by decide),
   by decide⟩

/-- C1: every edge emitted by the graph build has a source id and a target
id present in the returned node set — an edge is only pushed when the
source file and the resolved target path both occur in the `fileToNodeId`
map that was populated from exactly the files that became nodes. -/
theorem c1_edge_endpoints_in_node_set (fs : FS) (files : List String)
    (rootDir : String) (importsOf : String → List String) (e : Edge)
    (he : e ∈ (generate fs files rootDir importsOf).2) :
    (∃ n ∈ (generate fs files rootDir importsOf).1, n.id = e.source) ∧
    (∃ n ∈ (generate fs files rootDir importsOf).1, n.id = e.target) := by
  rcases generate_edge_shape fs files rootDir importsOf e he with
    ⟨src, tgt, f, rp, hsrc, htgt, _, hes, het⟩
  have hnodes : (generate fs files rootDir importsOf).1 = buildNodes rootDir files := rfl
  rw [hnodes]
  constructor
  · rcases buildFileToNodeId_values files _ (jsMapGet_mem _ _ _ hsrc) with ⟨i, hi, hval⟩
    rcases mem_buildNodes_id rootDir files i hi with ⟨n, hn, hnid⟩
    refine ⟨n, hn, ?_⟩
    rw [hnid, hes]
    exact hval.symm
  · rcases buildFileToNodeId_values files _ (jsMapGet_mem _ _ _ htgt) with ⟨i, hi, hval⟩
    rcases mem_buildNodes_id rootDir files i hi with ⟨n, hn, hnid⟩
    refine ⟨n, hn, ?_⟩
    rw [hnid, het]
    exact hval.symm

/-- Witness for C1: in the two-file workspace the build emits the edge
`e0-1`, and ids `0` and `1` both name nodes. -/
theorem c1_edge_endpoints_in_node_set_witness :
    ({ id := "e0-1", source := "0", target := "1" } : Edge) ∈
      (generate fsW filesW ("/r") importsW).2 ∧
    ((∃ n ∈ (generate fsW filesW ("/r") importsW).1, n.id = "0") ∧
     (∃ n ∈ (generate fsW filesW ("/r") importsW).1, n.id = "1")) :=
  ⟨by decide,
   c1_edge_endpoints_in_node_set fsW filesW ("/r") importsW
     { id := "e0-1", source := "0", target := "1" } (by decide)⟩

/-- C2: the graph build never emits an edge whose source id equals its
target id — even when an import resolves back to the importing file, the
equal-id pair is dropped before being appended to the edge list. -/
theorem c2_no_self_loops (fs : FS) (files : List String) (rootDir : String)
    (importsOf : String → List String) (e : Edge)
    (he : e ∈ (generate fs files rootDir importsOf).2) :
    e.source ≠ e.target := by
  rcases generate_edge_shape fs files rootDir importsOf e he with
    ⟨src, tgt, f, rp, _, _, hne, hes, het⟩
  rw [hes, het]
  exact hne

/-- Witness for C2 on the emitted edge `e0-1`, with a workspace where `a.ts`
also imports itself (`./a`) and no self-loop is emitted. -/
theorem c2_no_self_loops_witness :
    ({ id := "e0-1", source := "0", target := "1" } : Edge) ∈
      (generate fsW filesW ("/r") importsSelfW).2 ∧
    (generate fsW filesW ("/r") importsSelfW).2 =
      [{ id := "e0-1", source := "0", target := "1" }] ∧
    ("0" : String) ≠ "1" :=
  ⟨by decide, by decide,
   c2_no_self_loops fsW filesW ("/r") importsSelfW
     { id := "e0-1", source := "0", target := "1" } (by decide)⟩

/-- C4: with fewer than 3 nodes `computeLandforms` returns no landmass and
an empty plate list; with at least 3 nodes (and the d3 Voronoi routine
producing a cell for every site, as its clipping bounds guarantee) it
returns exactly one plate per distinct directory value among the nodes, the
plate of directory `d` carrying the Voronoi cell of `d`'s centroid clipped
to the fixed bounding box. -/
theorem c4_landforms_per_directory (cellFn : CellFn) (hullFn : HullFn)
    (nodes : List GNode) (colorFn : String → String)
    (hcell : ∀ p ∈ (centroidsOf nodes).enum,
      (cellFn (pointsOf nodes) voronoiBounds p.1).isSome = true) :
    (nodes.length < 3 → computeLandforms cellFn hullFn nodes colorFn = (none, [])) ∧
    (3 ≤ nodes.length →
      (computeLandforms cellFn hullFn nodes colorFn).2 =
        (centroidsOf nodes).enum.map (fun p =>
          ({ id := p.2.dir
             path := (cellFn (pointsOf nodes) voronoiBounds p.1).getD []
             color := colorFn p.2.dir
             type := HullType.plate } : Hull)) ∧
      ((computeLandforms cellFn hullFn nodes colorFn).2).map Hull.id =
        firstOccur (nodes.map dirOf)) := by
  constructor
  · intro h
    simp [computeLandforms, h]
  · intro h
    have hlt : ¬nodes.length < 3 := by omega
    have h2 : (computeLandforms cellFn hullFn nodes colorFn).2 =
        (centroidsOf nodes).enum.filterMap (fun p =>
          (cellFn (pointsOf nodes) voronoiBounds p.1).map (fun cell =>
            ({ id := p.2.dir, path := cell, color := colorFn p.2.dir,
               type := HullType.plate } : Hull))) := by
      simp [computeLandforms, hlt]
    have h3 := plates_filterMap_total cellFn colorFn (pointsOf nodes) _ hcell
    refine ⟨by rw [h2, h3], ?_⟩
    rw [h2, h3, List.map_map]
    have hcomp : (Hull.id ∘ fun p : ℕ × Centroid =>
        ({ id := p.2.dir,
           path := (cellFn (pointsOf nodes) voronoiBounds p.1).getD [],
           color := colorFn p.2.dir, type := HullType.plate } : Hull)) =
        (Centroid.dir ∘ Prod.snd) := rfl
    rw [hcomp, ← List.map_map, List.enum_map_snd]
    unfold centroidsOf
    rw [List.map_map]
    have hfst : (Centroid.dir ∘ fun p : String × ClusterAcc =>
        (⟨p.1, p.2.sx / p.2.count, p.2.sy / p.2.count⟩ : Centroid)) = Prod.fst := rfl
    rw [hfst, clusterMapOf_keys]

/-- Witness for C4: two nodes give no regions; the three nodes of `nodesW`
spanning directories `src` and `lib` give exactly one plate per directory. -/
theorem c4_landforms_per_directory_witness :
    computeLandforms cellW hullW [] getColor = (none, []) ∧
    (computeLandforms cellW hullW nodesW getColor).2.map Hull.id =
      firstOccur (nodesW.map dirOf) ∧
    (computeLandforms cellW hullW nodesW getColor).2.map Hull.id = ["src", "lib"] :=
  ⟨(c4_landforms_per_directory cellW hullW [] getColor (by decide)).1 (by decide),
   ((c4_landforms_per_directory cellW hullW nodesW getColor (by decide)).2
     (by decide)).2,
   by decide⟩

/-- C10: for every input string — including the empty string and strings
hashing to a negative 32-bit value — `getColor` returns a 7-character string
consisting of `#` followed by exactly 6 uppercase hexadecimal digits: the
24-bit mask always yields a nonnegative value of at most six hex digits and
the padding restores the width to exactly six. -/
theorem c10_getColor_wellformed (s : String) :
    (getColor s).length = 7 ∧
    (getColor s).data.head? = some '#' ∧
    ∀ c ∈ (getColor s).data.tail, isUpperHexDigit c := by
  have hmask : jsAnd24 (strHash s) < 16777216 := jsAnd24_lt _
  have h6 : ((toHex (jsAnd24 (strHash s))).map Char.toUpper).length ≤ 6 := by
    rw [List.length_map]
    have := toHexAux_length_le 6 (jsAnd24 (strHash s)) (jsAnd24 (strHash s)) []
      (by norm_num; omega) (by norm_num)
    simpa [toHex] using this
  have h1 : 1 ≤ ((toHex (jsAnd24 (strHash s))).map Char.toUpper).length := by
    rw [List.length_map]
    have := toHexAux_length_gt (jsAnd24 (strHash s)) (jsAnd24 (strHash s)) []
    simpa [toHex] using this
  have h5 : ("00000".data).length = 5 := by decide
  refine ⟨?_, ?_, ?_⟩
  · have : (getColor s).length = (getColor s).data.length := rfl
    rw [this, getColor_data]
    simp only [List.length_cons, List.length_append, List.length_take,
      List.length_map, h5] at h6 h1 ⊢
    omega
  · rw [getColor_data]
    rfl
  · rw [getColor_data]
    intro c hc
    simp only [List.cons_append, List.tail_cons] at hc
    rcases List.mem_append.mp hc with h | h
    · have hz : c ∈ "00000".data := List.take_subset _ _ h
      have hd : ("00000".data) = ['0', '0', '0', '0', '0'] := rfl
      rw [hd] at hz
      have : c = '0' := by simpa using hz
      rw [this]
      decide
    · rcases List.mem_map.mp h with ⟨d, hd, hcd⟩
      rcases toHexAux_mem _ _ _ _ hd with ⟨k, hk, hdk⟩ | hfalse
      · rw [← hcd, hdk]
        exact hexDigitChar_upper_mem k hk
      · simp at hfalse

/-- Witness for C10 at the empty string, whose hash is 0 and whose color is
`#000000`: length 7, leading `#`, and an uppercase-hex digit in the tail. -/
theorem c10_getColor_wellformed_witness :
    (getColor ("")).length = 7 ∧
    (getColor ("")).data.head? = some '#' ∧
    isUpperHexDigit ((getColor ("")).data.tail.headD '0') :=
  ⟨(c10_getColor_wellformed ("")).1,
   (c10_getColor_wellformed ("")).2.1,
   (c10_getColor_wellformed ("")).2.2 _ (by decide)⟩

end Onboarder
